import Mathlib

/-!
Verification of the block-engine core of this repository against its
natural-language specification.

The JavaScript sources are shallowly embedded in Lean 4:

* bn.js big numbers are modelled as `Int` (all values fit, none of the
  operations used here overflow bn.js's limits).  Two bn.js semantic
  facts matter and are modelled faithfully:
  - `new BN(n, base)` with a JavaScript *number* argument ignores the
    `base` argument entirely (`BN.prototype._init` dispatches numbers to
    `_initNumber`, which never reads `base`), so `new BN(11801972029393, 16)`
    denotes the decimal value 11801972029393;
  - `BN.prototype.div` truncates the quotient toward zero (`divmod` negates
    the quotient of the absolute values), i.e. it is `Int.tdiv`, not floor
    division.
* JavaScript objects keyed by block height are modelled as association
  lists sorted by ascending height (JS objects iterate integer-like keys
  in ascending numeric order).
* Fallible code (rejected promises, thrown errors) returns `Except`.
* The Blake2 hash is an opaque primitive per the specification; pure
  values that depend only on it are supplied as oracle parameters.
-/

set_option maxHeartbeats 1600000
set_option maxRecDepth 8000

namespace Spec2Proof

/-! ## Difficulty functions (`src/src/bc/miner.es6`) -/

/-- `const MINIMUM_DIFFICULTY = new BN(11801972029393, 16)` from
`src/src/bc/miner.es6` line 50.  bn.js ignores the base argument for
number inputs, so the constant is the decimal value 11801972029393. -/
def MINIMUM_DIFFICULTY : Int := 11801972029393

/-- `getDiff` from `src/src/bc/miner.es6` lines 97-140.  All `new BN(x, 16)`
conversions of number arguments ignore the base, so each argument is used
at its numeric value.  `BN.div` truncates toward zero (`Int.tdiv`). -/
def getDiff (currentBlockTime previousBlockTime previousDistance
    minimalDifficulty newBlockCount : Int) : Int :=
  let elapsedTime := currentBlockTime - previousBlockTime
  -- elapsedTime + ((elapsedTime - 4) * newBlocks)
  let elapsedTimeBonus := elapsedTime + (elapsedTime - 4) * newBlockCount
  let elapsedTime := if 0 < elapsedTimeBonus then elapsedTimeBonus else elapsedTime
  -- x = 1 - (elapsedTime / 6), bn.js div = truncation toward zero
  let x := 1 - elapsedTime.tdiv 6
  let x := if x < -99 then -99 else x
  let y := previousDistance.tdiv 148
  let x := x * y
  let x := x + previousDistance
  if x < minimalDifficulty then minimalDifficulty else x

/-- The claimed computation of `get_diff`, following the specification's
words: step 3 uses mathematical floor division (`Int.fdiv`) for
`x = 1 - floor(elapsed / 6)`.  To be compared with `getDiff` above. -/
def getDiffClaimed (currentBlockTime previousBlockTime previousDistance
    minimalDifficulty newBlockCount : Int) : Int :=
  let elapsed := currentBlockTime - previousBlockTime
  let bonus := elapsed + (elapsed - 4) * newBlockCount
  let elapsed := if 0 < bonus then bonus else elapsed
  let x := max (1 - elapsed.fdiv 6) (-99)
  let y := previousDistance.tdiv 148
  max (previousDistance + x * y) minimalDifficulty

/-- `getExpFactorDiff` from `src/src/bc/miner.es6` lines 66-84. -/
def getExpFactorDiff (calculatedDifficulty : Int) (parentBlockHeight : Int) : Int :=
  let periodCount := (parentBlockHeight + 1).tdiv 66000000
  if 2 < periodCount then
    calculatedDifficulty + 2 ^ (periodCount - 2).toNat
  else
    calculatedDifficulty

/-- C1: the claim's formula disagrees with the code at a negative elapsed
time: with `now = 0`, `prev_ts = 5`, `prev_distance = 148`, `min_diff = 0`,
`new_block_count = 0`, the code computes `x = 1 - tdiv (-5) 6 = 1` and
returns 149, while the claimed floor division gives `x = 1 - (-1) = 2`
and 150. -/
theorem getDiff_claim_counterexample :
    getDiff 0 5 148 0 0 ≠ getDiffClaimed 0 5 148 0 0 ∧
    getDiff 0 5 148 0 0 = 149 ∧ getDiffClaimed 0 5 148 0 0 = 150 := by
  decide

/-- bn.js `x.lt(m) ? m : x` pattern: an if-guarded lower clamp is a `max`. -/
theorem ite_lt_eq_max (a m : Int) : (if a < m then m else a) = max a m := by
  rcases le_or_lt m a with h | h
  · rw [if_neg (not_lt.mpr h), max_eq_left h]
  · rw [if_pos h, max_eq_right (le_of_lt h)]

/-- C1 (amended): `getDiff` computes `elapsed = now - prev_ts`;
`bonus = elapsed + (elapsed - 4) * new_block_count` with `elapsed`
replaced by `bonus` when `bonus > 0`; `x = 1 - (elapsed / 6)` with the
division truncating toward zero (bn.js `div`), clamped to `x ≥ -99`;
`y = prev_distance / 148` (truncating division); and returns
`max(prev_distance + x * y, min_diff)`, all as unbounded integers. -/
theorem getDiff_closed_form (now prevTs prevDistance minDiff newBlockCount : Int) :
    getDiff now prevTs prevDistance minDiff newBlockCount =
      max (prevDistance +
            (max (1 - (let e := now - prevTs;
                       let b := e + (e - 4) * newBlockCount;
                       if 0 < b then b else e).tdiv 6) (-99)) *
            prevDistance.tdiv 148)
          minDiff := by
  unfold getDiff
  dsimp only
  rw [ite_lt_eq_max, ite_lt_eq_max]
  congr 1
  ring

/-- C4: the minimum-difficulty constant does not equal
0x11801972029393 = 4925904907162515; bn.js ignores the base argument
for number inputs. -/
theorem minimum_difficulty_not_hex :
    MINIMUM_DIFFICULTY ≠ 4925904907162515 := by
  decide

/-- C4 (amended): the minimum-difficulty constant equals the decimal
value 11801972029393 (the digits of the literal read in base 10, since
bn.js ignores the base argument for JavaScript number inputs). -/
theorem minimum_difficulty_value :
    MINIMUM_DIFFICULTY = 11801972029393 ∧ MINIMUM_DIFFICULTY < 4925904907162515 := by
  decide

/-! ## Block model

`BcBlock` protobuf messages are modelled by the fields the verified
operations read.  `headerHashes` is the flattened list of child-header
hashes across all chains in key order, i.e. the result of
`getAllBlockchainHashes` in `src/src/bc/multiverse.es6` lines 126-131
(ramda `equals` on those arrays is element-wise list equality).
`totalDistance` is a decimal string in the protobuf, converted with
`new BN(...)`; it is modelled as the nonnegative integer it denotes. -/

structure Block where
  hash : String
  previousHash : String
  height : Int
  totalDistance : Nat
  headerHashes : List String
  timestamp : Int
  deriving DecidableEq, Repr

/-- `getAllBlockchainHashes` (`src/src/bc/multiverse.es6` lines 126-131):
concatenation of the per-chain header-hash lists of a block. -/
def getAllBlockchainHashes (block : Block) : List String :=
  block.headerHashes

/-! ## Multiverse (`src/src/bc/multiverse.es6`)

`this._blocks` is a JS object mapping heights to arrays of blocks; it is
modelled as an association list with one entry per populated height.
`addBlock` never reads the iteration order of the keys (only their
count), so the entry order of the association list is irrelevant here;
pushes update the entry of an existing height in place and append a new
height at the end. -/

/-- One entry per populated height. -/
def Multiverse := List (Int × List Block)

instance : DecidableEq Multiverse := by
  unfold Multiverse
  infer_instance

/-- `this._blocks[h]`: `none` when height `h` is unpopulated. -/
def mvLookup (mv : Multiverse) (h : Int) : Option (List Block) :=
  match mv with
  | [] => none
  | (k, l) :: rest => if h = k then some l else mvLookup rest h

/-- `if (blocks[h] === undefined) blocks[h] = []; blocks[h].push(block)`. -/
def mvPush (mv : Multiverse) (h : Int) (b : Block) : Multiverse :=
  match mv with
  | [] => [(h, [b])]
  | (k, l) :: rest =>
    if h = k then (k, l ++ [b]) :: rest else (k, l) :: mvPush rest h b

/-- Stable insert of a block into a list sorted by descending
`totalDistance` (ties keep their original order). -/
def insertByDistDesc (x : Block) : List Block → List Block
  | [] => [x]
  | y :: ys =>
    if y.totalDistance ≤ x.totalDistance then x :: y :: ys
    else y :: insertByDistDesc x ys

/-- JS `Array.prototype.sort` with the comparator
`(a, b) => a.totalDistance < b.totalDistance ? 1 : (a.totalDistance >
b.totalDistance ? -1 : 0)` is a stable sort by descending total
distance (ECMAScript sorts are stable); modelled as stable insertion
sort. -/
def sortByDistDesc : List Block → List Block
  | [] => []
  | x :: xs => insertByDistDesc x (sortByDistDesc xs)

/-- `if (blocks[h].length > 1) blocks[h] = blocks[h].sort(...)` applied
to the entry at height `h`. -/
def mvSortAt (mv : Multiverse) (h : Int) : Multiverse :=
  match mv with
  | [] => []
  | (k, l) :: rest =>
    (if k = h then (k, if 1 < l.length then sortByDistDesc l else l) else (k, l)) ::
      mvSortAt rest h

/-- `hasParent` of `addBlock` (`src/src/bc/multiverse.es6` lines 168-186):
the parent height is populated, some entry there has the block's
`previousHash` as hash, some entry there has height `h - 1`, and the
first entry's header hashes differ from the block's. -/
def hasParentB (mv : Multiverse) (block : Block) : Bool :=
  match mvLookup mv (block.height - 1) with
  | none => false
  | some parentList =>
    let hasParentHash := parentList.any (fun item => item.hash == block.previousHash)
    let hasParentHeight := parentList.any (fun item => item.height == block.height - 1)
    let parentBlockHeaders := (parentList.head?.map getAllBlockchainHashes).getD []
    let uniqueParentHeaders := !(parentBlockHeaders == getAllBlockchainHashes block)
    hasParentHash && hasParentHeight && uniqueParentHeaders

/-- `hasChild` of `addBlock` (`src/src/bc/multiverse.es6` lines 187-205). -/
def hasChildB (mv : Multiverse) (block : Block) : Bool :=
  match mvLookup mv (block.height + 1) with
  | none => false
  | some childList =>
    let hasChildHash := childList.any (fun item =>
      item.previousHash == block.hash && item.height - 1 == block.height)
    let hasChildHeight := childList.any (fun item => item.height - 1 == block.height)
    let childBlockHeaders := (childList.head?.map getAllBlockchainHashes).getD []
    let uniqueChildHeaders := !(childBlockHeaders == getAllBlockchainHashes block)
    hasChildHash && hasChildHeight && uniqueChildHeaders

/-- `alreadyInMultiverse` of `addBlock` (`src/src/bc/multiverse.es6`
lines 206-213): some block at the same height has an equal hash. -/
def alreadyInMultiverseB (mv : Multiverse) (block : Block) : Bool :=
  match mvLookup mv block.height with
  | none => false
  | some l => l.any (fun item => item.hash == block.hash)

/-- `Multiverse.addBlock` (`src/src/bc/multiverse.es6` lines 124-266).
Returns the boolean result and the updated block map.  `selective` is
the `_selective` field of the multiverse; `force` is the optional
second argument (default `false`). -/
def addBlock (selective : Bool) (mv : Multiverse) (block : Block) (force : Bool) :
    Bool × Multiverse :=
  let keyCount := mv.length
  let fs :=
    if keyCount < 7 && !selective then (true, true)
    else if keyCount < 1 then (true, true)
    else (force, false)
  let force := fs.1
  let syncing := fs.2
  let hasParent := hasParentB mv block
  let hasChild := hasChildB mv block
  let alreadyInMultiverse := alreadyInMultiverseB mv block
  if hasParent || hasChild then
    if !alreadyInMultiverse then
      (true, mvSortAt (mvPush mv block.height block) block.height)
    else
      (false, mv)
  else if force || syncing then
    (true, mvSortAt (mvPush mv block.height block) block.height)
  else
    (false, mv)

/-- Number of blocks with hash `s` stored at height `h`. -/
def hashCountAt (mv : Multiverse) (h : Int) (s : String) : Nat :=
  ((mvLookup mv h).getD []).countP (fun item => item.hash == s)

theorem insertByDistDesc_perm (x : Block) (l : List Block) :
    (insertByDistDesc x l).Perm (x :: l) := by
  induction l with
  | nil => exact List.Perm.refl _
  | cons y ys ih =>
    unfold insertByDistDesc
    split
    · exact List.Perm.refl _
    · exact (ih.cons y).trans (List.Perm.swap x y ys)

theorem sortByDistDesc_perm (l : List Block) : (sortByDistDesc l).Perm l := by
  induction l with
  | nil => exact List.Perm.refl _
  | cons x xs ih =>
    exact (insertByDistDesc_perm x (sortByDistDesc xs)).trans (ih.cons x)

theorem mvLookup_mvPush_self (mv : Multiverse) (h : Int) (b : Block) :
    mvLookup (mvPush mv h b) h = some (((mvLookup mv h).getD []) ++ [b]) := by
  induction mv with
  | nil => simp [mvPush, mvLookup]
  | cons p rest ih =>
    obtain ⟨k, l⟩ := p
    by_cases hk : h = k
    · simp [mvPush, mvLookup, hk]
    · simp [mvPush, mvLookup, hk, ih]

theorem mvLookup_mvSortAt_self (mv : Multiverse) (h : Int) :
    mvLookup (mvSortAt mv h) h =
      (mvLookup mv h).map (fun l => if 1 < l.length then sortByDistDesc l else l) := by
  induction mv with
  | nil => rfl
  | cons p rest ih =>
    obtain ⟨k, l⟩ := p
    by_cases hk : k = h
    · subst hk
      have e1 : mvSortAt ((k, l) :: rest) k =
          (k, if 1 < l.length then sortByDistDesc l else l) :: mvSortAt rest k := by
        simp [mvSortAt]
      rw [e1]
      simp [mvLookup]
    · have hk2 : ¬ (h = k) := fun hkk => hk hkk.symm
      have e1 : mvSortAt ((k, l) :: rest) h = (k, l) :: mvSortAt rest h := by
        simp only [mvSortAt]
        rw [if_neg hk]
      rw [e1]
      simp [mvLookup, hk2, ih]

/-- The hash count at the pushed height after push-and-resort is the old
hash count, plus one if the pushed block carries that hash. -/
theorem hashCountAt_push_sort (mv : Multiverse) (b : Block) (s : String) :
    hashCountAt (mvSortAt (mvPush mv b.height b) b.height) b.height s =
      hashCountAt mv b.height s + (if b.hash == s then 1 else 0) := by
  unfold hashCountAt
  rw [mvLookup_mvSortAt_self, mvLookup_mvPush_self]
  have hperm :
      (if 1 < (((mvLookup mv b.height).getD []) ++ [b]).length
        then sortByDistDesc (((mvLookup mv b.height).getD []) ++ [b])
        else ((mvLookup mv b.height).getD []) ++ [b]).Perm
        (((mvLookup mv b.height).getD []) ++ [b]) := by
    split
    · exact sortByDistDesc_perm _
    · exact List.Perm.refl _
  rw [Option.map_some', Option.getD_some, hperm.countP_eq, List.countP_append]
  congr 1
  by_cases hbs : b.hash = s
  · simp [List.countP, List.countP.go, Bool.cond_eq_ite, hbs]
  · simp [List.countP, List.countP.go, Bool.cond_eq_ite, hbs]

/-- C6: the claim fails when the block both links into the multiverse and
is already present at its height: with heights 1 and 2 populated (fewer
than 7), `selective = false`, re-adding the stored block of height 2
returns `false` and leaves the multiverse unchanged instead of appending
and returning `true`. -/
theorem addBlock_syncing_counterexample :
    (addBlock false
        [(1, [⟨"h1", "h0", 1, 10, ["x"], 0⟩]), (2, [⟨"h2", "h1", 2, 20, ["y"], 0⟩])]
        ⟨"h2", "h1", 2, 20, ["y"], 0⟩ false).1 = false ∧
    (addBlock false
        [(1, [⟨"h1", "h0", 1, 10, ["x"], 0⟩]), (2, [⟨"h2", "h1", 2, 20, ["y"], 0⟩])]
        ⟨"h2", "h1", 2, 20, ["y"], 0⟩ false).2 =
      [(1, [⟨"h1", "h0", 1, 10, ["x"], 0⟩]), (2, [⟨"h2", "h1", 2, 20, ["y"], 0⟩])] := by
  constructor <;> rfl

/-- C6 (amended): with fewer than 7 populated heights and
`selective = false`, `addBlock` appends the block at its height and
returns `true`, unless the block has a parent or child link in the
multiverse and a block with its hash is already present at its height,
in which case it returns `false` and leaves the multiverse unchanged. -/
theorem addBlock_below_seven_heights (mv : Multiverse) (block : Block) (force : Bool)
    (hk : mv.length < 7) :
    (((hasParentB mv block || hasChildB mv block) && alreadyInMultiverseB mv block) = true →
        addBlock false mv block force = (false, mv)) ∧
    (((hasParentB mv block || hasChildB mv block) && alreadyInMultiverseB mv block) = false →
        (addBlock false mv block force).1 = true ∧
        hashCountAt (addBlock false mv block force).2 block.height block.hash =
          hashCountAt mv block.height block.hash + 1) := by
  constructor
  · intro h
    rw [Bool.and_eq_true] at h
    obtain ⟨hpc, hal⟩ := h
    simp [addBlock, hpc, hal]
  · intro h
    have hres : addBlock false mv block force =
        (true, mvSortAt (mvPush mv block.height block) block.height) := by
      cases hpc : (hasParentB mv block || hasChildB mv block) with
      | false => simp [addBlock, hpc, hk]
      | true =>
        have hal : alreadyInMultiverseB mv block = false := by
          rw [hpc] at h
          simpa using h
        simp [addBlock, hpc, hal]
    rw [hres]
    refine ⟨rfl, ?_⟩
    simpa using hashCountAt_push_sort mv block block.hash

/-- C6 witness: a fresh block at an unpopulated height of a two-height
multiverse is appended with result `true`, and the stored duplicate case
returns `false`. -/
theorem addBlock_below_seven_heights_witness :
    (addBlock false
        [(1, [⟨"h1", "h0", 1, 10, ["x"], 0⟩]), (2, [⟨"h2", "h1", 2, 20, ["y"], 0⟩])]
        ⟨"h9", "h8", 9, 30, ["z"], 0⟩ false).1 = true ∧
    hashCountAt (addBlock false
        [(1, [⟨"h1", "h0", 1, 10, ["x"], 0⟩]), (2, [⟨"h2", "h1", 2, 20, ["y"], 0⟩])]
        ⟨"h9", "h8", 9, 30, ["z"], 0⟩ false).2 9 "h9" =
      hashCountAt [(1, [⟨"h1", "h0", 1, 10, ["x"], 0⟩]), (2, [⟨"h2", "h1", 2, 20, ["y"], 0⟩])]
        9 "h9" + 1 :=
  (addBlock_below_seven_heights
    [(1, [⟨"h1", "h0", 1, 10, ["x"], 0⟩]), (2, [⟨"h2", "h1", 2, 20, ["y"], 0⟩])]
    ⟨"h9", "h8", 9, 30, ["z"], 0⟩ false (by decide)).2 (by decide)

/-- C9: in the force/syncing branch (no parent or child link found, and
either `force = true`, or fewer than 7 populated heights with
`selective = false`, or an empty map), the already-present check is not
applied: a block whose hash is already stored at its height is appended
again, `addBlock` returns `true`, and the per-height list then holds the
hash at least twice. -/
theorem addBlock_force_branch_duplicates (selective : Bool) (mv : Multiverse)
    (block : Block) (force : Bool)
    (hp : hasParentB mv block = false) (hc : hasChildB mv block = false)
    (hal : alreadyInMultiverseB mv block = true)
    (hf : force = true ∨ (mv.length < 7 ∧ selective = false) ∨ mv.length < 1) :
    (addBlock selective mv block force).1 = true ∧
    hashCountAt (addBlock selective mv block force).2 block.height block.hash =
      hashCountAt mv block.height block.hash + 1 ∧
    2 ≤ hashCountAt (addBlock selective mv block force).2 block.height block.hash := by
  have hcount1 : 1 ≤ hashCountAt mv block.height block.hash := by
    unfold alreadyInMultiverseB at hal
    unfold hashCountAt
    cases hmv : mvLookup mv block.height with
    | none => rw [hmv] at hal; exact absurd hal (by simp)
    | some l =>
      rw [hmv] at hal
      have hal2 : (l.any fun item => item.hash == block.hash) = true := hal
      rw [List.any_eq_true] at hal2
      obtain ⟨item, hmem, hh⟩ := hal2
      have hpos : 0 < l.countP (fun item => item.hash == block.hash) := by
        rw [List.countP_pos_iff]
        exact ⟨item, hmem, hh⟩
      simpa using hpos
  have hres : addBlock selective mv block force =
      (true, mvSortAt (mvPush mv block.height block) block.height) := by
    rcases hf with hf | ⟨h7, hsel⟩ | h0
    · subst hf
      by_cases h7 : mv.length < 7
      · cases hsel : selective
        · simp [addBlock, hp, hc, h7]
        · by_cases h0 : mv.length < 1
          · simp [addBlock, hp, hc, h7, h0]
          · simp [addBlock, hp, hc, h7, h0]
      · have h0 : ¬ (mv.length < 1) := by omega
        simp [addBlock, hp, hc, h7, h0]
    · subst hsel
      simp [addBlock, hp, hc, h7]
    · have h7 : mv.length < 7 := by omega
      cases hsel : selective
      · simp [addBlock, hp, hc, h7]
      · simp [addBlock, hp, hc, h7, h0]
  rw [hres]
  dsimp only
  refine ⟨rfl, ?_, ?_⟩
  · simpa using hashCountAt_push_sort mv block block.hash
  · have h2 := hashCountAt_push_sort mv block block.hash
    simp at h2
    omega

/-- C9 witness: re-adding the only stored block of a one-height
multiverse (no parent or child height populated) appends a duplicate and
returns `true`. -/
theorem addBlock_force_branch_duplicates_witness :
    (addBlock false [(2, [⟨"h2", "h1", 2, 20, ["y"], 0⟩])]
        ⟨"h2", "h1", 2, 20, ["y"], 0⟩ false).1 = true ∧
    hashCountAt (addBlock false [(2, [⟨"h2", "h1", 2, 20, ["y"], 0⟩])]
        ⟨"h2", "h1", 2, 20, ["y"], 0⟩ false).2 2 "h2" =
      hashCountAt [(2, [⟨"h2", "h1", 2, 20, ["y"], 0⟩])] 2 "h2" + 1 ∧
    2 ≤ hashCountAt (addBlock false [(2, [⟨"h2", "h1", 2, 20, ["y"], 0⟩])]
        ⟨"h2", "h1", 2, 20, ["y"], 0⟩ false).2 2 "h2" :=
  addBlock_force_branch_duplicates false [(2, [⟨"h2", "h1", 2, 20, ["y"], 0⟩])]
    ⟨"h2", "h1", 2, 20, ["y"], 0⟩ false (by decide) (by decide) (by decide)
    (Or.inr (Or.inl (by decide)))

/-! ## Engine persistence of heights (`src/unnamed/part_000`, `storeHeight`)

The persistence keys touched by `storeHeight` are the height-indexed
`bc.block.<h>` keys; they are modelled as an association list from
height to block.  `persistence.get` of an absent key rejects, which the
surrounding `try`/`catch` turns into the orphan path; `persistence.put`
is modelled as succeeding (its failure handling is not at issue in the
claims below). -/

/-- `bc.block.<h>` portion of the persistence store. -/
def Store := List (Int × Block)

instance : DecidableEq Store := by
  unfold Store
  infer_instance

def storeGet (st : Store) (h : Int) : Option Block :=
  match st with
  | [] => none
  | (k, b) :: rest => if h = k then some b else storeGet rest h

def storePut (st : Store) (h : Int) (b : Block) : Store :=
  match st with
  | [] => [(h, b)]
  | (k, b0) :: rest =>
    if h = k then (k, b) :: rest else (k, b0) :: storePut rest h b

/-- The second conjunct of `storeHeight`'s non-force comparison
(`src/unnamed/part_000` line 366) is
`new BN(prev.getTotalDistance()).lt(new BN(block.getTotalDistance()) === true)`:
strict equality of a BN object with `true` is `false`, and bn.js
`lt(false)` reads `false.negative` (i.e. `undefined`), so `cmp` returns 1
for every nonnegative receiver and `lt` is `false`.  The conjunct is
therefore constantly `false`. -/
def bnLtJsFalse (a : Nat) : Bool := false

inductive StoreHeightOk where
  | noop
  | forcedPut
  | matchedPut
  | orphanStored
  deriving DecidableEq, Repr

inductive StoreHeightErr where
  | blockStateMismatch
  deriving DecidableEq, Repr

/-- `Engine.storeHeight` (`src/unnamed/part_000` lines 347-378), with the
message destructured into its `data` block and optional `force` flag.
The rejection in the non-force branch is `return Promise.reject(...)`,
which is *returned*, not thrown, so it is not caught by the surrounding
`catch`; the `catch` fires only when the `get` of `bc.block.<h-1>`
rejects. -/
def storeHeight (st : Store) (data : Block) (force : Option Bool) :
    Except StoreHeightErr StoreHeightOk × Store :=
  if data.height < 2 then (.ok .noop, st)
  else if force = some true then (.ok .forcedPut, storePut st data.height data)
  else
    match storeGet st (data.height - 1) with
    | some prev =>
      if prev.hash == data.previousHash && bnLtJsFalse prev.totalDistance then
        (.ok .matchedPut, storePut st data.height data)
      else
        (.error .blockStateMismatch, st)
    | none =>
      -- `await persistence.get(...)` threw: store as orphan and warn
      (.ok .orphanStored, storePut st data.height data)

/-- C2: with the predecessor present on disk and a mismatched previous
hash, `storeHeight` rejects with `block state did not match` and leaves
the store unchanged — the block is not persisted as an orphan.  (The
orphan path runs only when the predecessor lookup itself fails.) -/
theorem storeHeight_counterexample :
    storeHeight [(1, ⟨"h1", "h0", 1, 10, ["x"], 0⟩)]
        ⟨"h2", "zz", 2, 20, ["y"], 0⟩ none =
      (Except.error StoreHeightErr.blockStateMismatch,
        [(1, ⟨"h1", "h0", 1, 10, ["x"], 0⟩)]) ∧
    storeGet (storeHeight [(1, ⟨"h1", "h0", 1, 10, ["x"], 0⟩)]
        ⟨"h2", "zz", 2, 20, ["y"], 0⟩ none).2 2 = none := by
  constructor <;> rfl

/-- C2 (amended): for a block of height ≥ 2 without the force flag:
when the stored predecessor `bc.block.<h-1>` exists, `storeHeight`
always rejects with `block state did not match` and persists nothing
(the total-distance conjunct compares against the JS value `false` and
is constantly false, and the returned rejection is not caught); the
store-as-orphan-and-warn path runs exactly when the predecessor lookup
fails. -/
theorem storeHeight_predecessor_cases (st : Store) (b : Block) (force : Option Bool)
    (h2 : 2 ≤ b.height) (hf : force ≠ some true) :
    (∀ prev, storeGet st (b.height - 1) = some prev →
        storeHeight st b force = (.error .blockStateMismatch, st)) ∧
    (storeGet st (b.height - 1) = none →
        storeHeight st b force = (.ok .orphanStored, storePut st b.height b)) := by
  have hnl : ¬ (b.height < 2) := by omega
  constructor
  · intro prev hprev
    simp [storeHeight, hnl, hf, hprev, bnLtJsFalse]
  · intro hprev
    simp [storeHeight, hnl, hf, hprev]

/-- C2 witness: height-2 blocks, one with the predecessor present
(rejected, nothing stored) and one with it absent (stored as orphan). -/
theorem storeHeight_predecessor_cases_witness :
    storeHeight [(1, ⟨"h1", "h0", 1, 10, ["x"], 0⟩)]
        ⟨"h2", "h1", 2, 20, ["y"], 0⟩ none =
      (Except.error StoreHeightErr.blockStateMismatch,
        [(1, ⟨"h1", "h0", 1, 10, ["x"], 0⟩)]) ∧
    storeHeight [] ⟨"h2", "h1", 2, 20, ["y"], 0⟩ none =
      (Except.ok StoreHeightOk.orphanStored,
        storePut [] 2 ⟨"h2", "h1", 2, 20, ["y"], 0⟩) :=
  ⟨(storeHeight_predecessor_cases [(1, ⟨"h1", "h0", 1, 10, ["x"], 0⟩)]
      ⟨"h2", "h1", 2, 20, ["y"], 0⟩ none (by decide) (by decide)).1
      ⟨"h1", "h0", 1, 10, ["x"], 0⟩ (by decide),
   (storeHeight_predecessor_cases [] ⟨"h2", "h1", 2, 20, ["y"], 0⟩ none
      (by decide) (by decide)).2 (by decide)⟩

/-! ## Block pool (`src/src/bc/blockpool.es6`) -/

/-- The `_checkpoint` field of `BlockPool` as a JS value: it is
initialised to the boolean `false`, later set to a block by `purge` and
reset to `false` by `_eventCheckpointReached`; `undefined` is included
because the guard in `addBlock` tests for it. -/
inductive JsCheckpoint where
  | undef
  | falseV
  | block (b : Block)
  deriving DecidableEq, Repr

inductive BlockPoolErr where
  | noCheckpointSet
  | typeErrorUndefinedGetHash
  deriving DecidableEq, Repr

/-- `BlockPool.addBlock` (`src/src/bc/blockpool.es6` lines 77-170),
modelled up to its first unconditional failure.  The guard at line 84 is
`this._checkpoint === undefined && this._checkpoint === false`, a
conjunction of two incompatible strict equalities, hence never taken.
Line 87 then reads `self.genesisBlock`: the class defines the field
`_genesisBlock` and no `genesisBlock` accessor, so the property access
yields `undefined` and `.getHash()` throws a TypeError, rejecting the
returned promise before any other branch can run. -/
def BlockPool.addBlock (checkpoint : JsCheckpoint) (block : Block) :
    Except BlockPoolErr Bool :=
  if checkpoint = .undef ∧ checkpoint = .falseV then
    .error .noCheckpointSet
  else
    .error .typeErrorUndefinedGetHash

/-- C8: block-pool `add` fails (rejects with an error) whenever no
checkpoint is set, for every block. -/
theorem blockpool_add_fails_without_checkpoint (checkpoint : JsCheckpoint)
    (block : Block) (h : checkpoint = .falseV ∨ checkpoint = .undef) :
    ∃ e, BlockPool.addBlock checkpoint block = .error e := by
  unfold BlockPool.addBlock
  by_cases hc : checkpoint = .undef ∧ checkpoint = .falseV
  · exact absurd (hc.1.symm.trans hc.2) (by decide)
  · exact ⟨.typeErrorUndefinedGetHash, by simp [hc]⟩

/-- C8 witness: adding a block to a freshly constructed pool
(`_checkpoint = false`) rejects. -/
theorem blockpool_add_fails_without_checkpoint_witness :
    ∃ e, BlockPool.addBlock JsCheckpoint.falseV ⟨"h2", "h1", 2, 20, ["y"], 0⟩ =
      .error e :=
  blockpool_add_fails_without_checkpoint JsCheckpoint.falseV
    ⟨"h2", "h1", 2, 20, ["y"], 0⟩ (Or.inl rfl)

inductive PurgeErr where
  | belowHeight2
  deriving DecidableEq, Repr

/-- `BlockPool.purgeFrom` (`src/src/bc/blockpool.es6` lines 171-185).
`delFails` is an oracle telling which `persistence.del` calls throw; the
`catch` recurses exactly like the success path, so the result does not
depend on it.  The first component lists the heights whose deletion was
attempted, in order. -/
def purgeFrom (delFails : Int → Bool) (start stop : Int) :
    List Int × Except PurgeErr Bool :=
  if h1 : stop < 1 ∨ start ≤ 1 then ([], .error .belowHeight2)
  else if h2 : start = stop then ([], .ok true)
  else
    -- `persistence.del('bc.block.' + start)` is attempted; both the
    -- success path and the catch recurse on `start - 1`
    let rest := purgeFrom delFails (start - 1) stop
    (start :: rest.1, rest.2)
  termination_by (start - 1).toNat
  decreasing_by
    simp_wf
    omega

/-- The heights `start, start - 1, …, stop + 1` in descending order
(empty when `start ≤ stop`). -/
def descRange (start stop : Int) : List Int :=
  if start ≤ stop then [] else start :: descRange (start - 1) stop
  termination_by (start - stop).toNat
  decreasing_by
    simp_wf
    omega

/-- C10's claimed behaviour of `purge_from(start, end)`: either an
immediate rejection with no deletions (when `end < 1` or `start ≤ 1`),
or deletion of `bc.block.<i>` for `i` from `start` down to `end + 1`
followed by resolution when `start` reaches `end`. -/
def purgeFromClaimedBehavior (delFails : Int → Bool) (start stop : Int) : Prop :=
  ((stop < 1 ∨ start ≤ 1) ∧
      purgeFrom delFails start stop = ([], .error .belowHeight2)) ∨
  (¬ (stop < 1 ∨ start ≤ 1) ∧
      purgeFrom delFails start stop = (descRange start stop, .ok true))

theorem descRange_of_le (start stop : Int) (h : start ≤ stop) :
    descRange start stop = [] := by
  unfold descRange
  simp [h]

theorem descRange_of_gt (start stop : Int) (h : stop < start) :
    descRange start stop = start :: descRange (start - 1) stop := by
  conv_lhs => unfold descRange
  rw [if_neg (by omega : ¬ start ≤ stop)]

/-- C10: at `start = 2`, `end = 1` (the arguments `purge` itself uses),
`purge_from` deletes `bc.block.2` and then rejects with `cannot purge
below height 2` instead of resolving: the recursion reaches
`purge_from(1, 1)` whose `start ≤ 1` guard fires before the equality
test.  So the claimed two-case behaviour is violated. -/
theorem purgeFrom_claim_counterexample :
    ¬ purgeFromClaimedBehavior (fun _ => false) 2 1 := by
  have h11 : purgeFrom (fun _ => false) 1 1 = ([], .error .belowHeight2) := by
    unfold purgeFrom
    norm_num
  have h21 : purgeFrom (fun _ => false) 2 1 = ([2], .error .belowHeight2) := by
    unfold purgeFrom
    norm_num [h11]
  intro hcl
  rcases hcl with ⟨hg, _⟩ | ⟨hg, heq⟩
  · omega
  · rw [h21] at heq
    simp at heq

/-- C10 (amended): `purge_from(start, end)` terminates for every pair of
integers, with this exact behaviour: if `end < 1` or `start ≤ 1` it
rejects immediately with no deletions; otherwise, if `2 ≤ end ≤ start`
it deletes `bc.block.<i>` for `i` from `start` down to `end + 1` and
resolves when `start` reaches `end`; otherwise (`end = 1`, or
`start < end`) it deletes from `start` down to height 2 and then
rejects when `start` reaches 1, in every case continuing past
individual delete failures (the result does not depend on which
deletions fail). -/
theorem purgeFrom_characterization (delFails : Int → Bool) (start stop : Int) :
    purgeFrom delFails start stop =
      if stop < 1 ∨ start ≤ 1 then ([], .error .belowHeight2)
      else if 2 ≤ stop ∧ stop ≤ start then (descRange start stop, .ok true)
      else (descRange start 1, .error .belowHeight2) := by
  induction start, stop using purgeFrom.induct delFails with
  | case1 start stop h1 =>
    rw [if_pos h1]
    unfold purgeFrom
    rw [dif_pos h1]
  | case2 stop h1 =>
    rw [if_neg h1, if_pos (show 2 ≤ stop ∧ stop ≤ stop by omega)]
    unfold purgeFrom
    rw [dif_neg h1, dif_pos rfl, descRange_of_le stop stop le_rfl]
  | case3 start stop h1 h2 ih =>
    have hstep : purgeFrom delFails start stop =
        (start :: (purgeFrom delFails (start - 1) stop).1,
          (purgeFrom delFails (start - 1) stop).2) := by
      conv_lhs => unfold purgeFrom
      rw [dif_neg h1, dif_neg h2]
    rw [hstep, ih, if_neg h1]
    by_cases hg1 : stop < 1 ∨ start - 1 ≤ 1
    · -- the recursive call rejects immediately, so start = 2 here
      have hs2 : start = 2 := by omega
      have hnc : ¬ (2 ≤ stop ∧ stop ≤ start) := by omega
      rw [if_pos hg1, if_neg hnc, descRange_of_gt start 1 (by omega),
        descRange_of_le (start - 1) 1 (by omega)]
    · rw [if_neg hg1]
      by_cases hc : 2 ≤ stop ∧ stop ≤ start
      · have hlt : 2 ≤ stop ∧ stop ≤ start - 1 := ⟨hc.1, by omega⟩
        rw [if_pos hc, if_pos hlt, descRange_of_gt start stop (by omega)]
      · have hnc2 : ¬ (2 ≤ stop ∧ stop ≤ start - 1) := by omega
        rw [if_neg hc, if_neg hnc2, descRange_of_gt start 1 (by omega)]

/-! ## Engine event loop state (`src/unnamed/part_000`)

The engine-local mutable state read or written by the event handlers is
`_canMine`, `_collectedBlocks`, `_peerIsSyncing` and `_peerIsResyncing`.
The known chains are the five rovered chains (`btc`, `eth`, `lsk`,
`neo`, `wav`, see the column comment at `src/unnamed/part_000` line 791
and the header ordering note in `src/src/bc/miner.es6`); the
constructor (lines 178-181) gives every known chain a zero counter and
sets `_canMine = false`.  `_canMine` is written nowhere outside
`collectBlock` (lines 536-580). -/

inductive Chain where
  | btc
  | eth
  | lsk
  | neo
  | wav
  deriving DecidableEq, Repr

structure EngineState where
  canMine : Bool
  collected : Chain → Nat
  peerIsSyncing : Bool
  peerIsResyncing : Bool

/-- `all((numCollected) => numCollected >= 1, values(this._collectedBlocks))`
(`src/unnamed/part_000` line 541): the values of the collected-blocks
object are the five per-chain counters. -/
def allCollectedAtLeastOne (f : Chain → Nat) : Bool :=
  [Chain.btc, Chain.eth, Chain.lsk, Chain.neo, Chain.wav].all
    (fun c => decide (1 ≤ f c))

theorem allCollectedAtLeastOne_iff (f : Chain → Nat) :
    allCollectedAtLeastOne f = true ↔ ∀ c, 1 ≤ f c := by
  unfold allCollectedAtLeastOne
  rw [List.all_eq_true]
  constructor
  · intro h c
    cases c
    · simpa using h Chain.btc (by decide)
    · simpa using h Chain.eth (by decide)
    · simpa using h Chain.lsk (by decide)
    · simpa using h Chain.neo (by decide)
    · simpa using h Chain.wav (by decide)
  · intro h c hc
    simpa using h c

/-- `this._collectedBlocks[chain] += 1`. -/
def bumpCollected (f : Chain → Nat) (c : Chain) : Chain → Nat :=
  fun x => if x = c then f x + 1 else f x

/-- The engine events that touch the engine-local state above:
`collectBlock` (rover tip, lines 536-580), `receiveSyncPeriod`
(lines 676-678) and the three pubsub subscriptions registered in `init`
(`update.checkpoint.start`, `state.resync.failed`,
`state.checkpoint.end`, lines 312-329). -/
inductive EngineEvent where
  | collectBlock (chain : Chain)
  | receiveSyncPeriod (syncing : Bool)
  | updateCheckpointStart
  | stateResyncFailed
  | stateCheckpointEnd

def engineStep (s : EngineState) (e : EngineEvent) : EngineState :=
  match e with
  | .collectBlock chain =>
    let collected := bumpCollected s.collected chain
    let canMine :=
      if !s.canMine && allCollectedAtLeastOne collected then true else s.canMine
    { s with collected := collected, canMine := canMine }
  | .receiveSyncPeriod b => { s with peerIsSyncing := b }
  | .updateCheckpointStart => { s with peerIsResyncing := true }
  | .stateResyncFailed => { s with peerIsResyncing := true }
  | .stateCheckpointEnd => { s with peerIsResyncing := false }

/-- Engine state after the constructor (`src/unnamed/part_000`
lines 162-199). -/
def engineInit : EngineState :=
  { canMine := false
    collected := fun _ => 0
    peerIsSyncing := false
    peerIsResyncing := false }

def engineRun (events : List EngineEvent) : EngineState :=
  events.foldl engineStep engineInit

theorem engineStep_canMine_mono (s : EngineState) (e : EngineEvent)
    (h : s.canMine = true) : (engineStep s e).canMine = true := by
  cases e with
  | collectBlock chain => simp [engineStep, h]
  | receiveSyncPeriod b => exact h
  | updateCheckpointStart => exact h
  | stateResyncFailed => exact h
  | stateCheckpointEnd => exact h

theorem engineStep_preserves_inv (s : EngineState) (e : EngineEvent)
    (h : (∀ c, 1 ≤ s.collected c) → s.canMine = true) :
    (∀ c, 1 ≤ (engineStep s e).collected c) → (engineStep s e).canMine = true := by
  cases e with
  | collectBlock chain =>
    intro hall
    simp only [engineStep] at hall ⊢
    cases hcm : s.canMine with
    | true => simp [hcm]
    | false =>
      have : allCollectedAtLeastOne (bumpCollected s.collected chain) = true :=
        (allCollectedAtLeastOne_iff _).mpr hall
      simp [hcm, this]
  | receiveSyncPeriod b => exact h
  | updateCheckpointStart => exact h
  | stateResyncFailed => exact h
  | stateCheckpointEnd => exact h

theorem engineFoldl_preserves_inv (events : List EngineEvent) :
    ∀ s : EngineState, ((∀ c, 1 ≤ s.collected c) → s.canMine = true) →
      (∀ c, 1 ≤ (events.foldl engineStep s).collected c) →
        (events.foldl engineStep s).canMine = true := by
  induction events with
  | nil => exact fun s h => h
  | cons e es ih =>
    intro s h
    exact ih (engineStep s e) (engineStep_preserves_inv s e h)

/-- C7: over the engine's event-processing steps, whenever every known
chain's collected-blocks counter is at least 1, `can_mine` is `true`
(the flip happens inside the `collectBlock` handler, the only writer of
the counters); and no event handler ever clears `can_mine` back to
`false` once it is `true`. -/
theorem canMine_monotone_invariant (events : List EngineEvent) :
    ((∀ c, 1 ≤ (engineRun events).collected c) → (engineRun events).canMine = true) ∧
    (∀ s e, s.canMine = true → (engineStep s e).canMine = true) := by
  constructor
  · exact engineFoldl_preserves_inv events engineInit
      (fun h => absurd (h Chain.btc) (by simp [engineInit]))
  · exact engineStep_canMine_mono

/-- C7 witness: after one tip from each of the five chains `can_mine`
is `true`, and it stays `true` across a further event. -/
theorem canMine_monotone_invariant_witness :
    (engineRun [EngineEvent.collectBlock Chain.btc, EngineEvent.collectBlock Chain.eth,
      EngineEvent.collectBlock Chain.lsk, EngineEvent.collectBlock Chain.neo,
      EngineEvent.collectBlock Chain.wav]).canMine = true ∧
    (engineStep (engineRun [EngineEvent.collectBlock Chain.btc,
      EngineEvent.collectBlock Chain.eth, EngineEvent.collectBlock Chain.lsk,
      EngineEvent.collectBlock Chain.neo, EngineEvent.collectBlock Chain.wav])
      (EngineEvent.receiveSyncPeriod true)).canMine = true := by
  have h1 := (canMine_monotone_invariant [EngineEvent.collectBlock Chain.btc,
    EngineEvent.collectBlock Chain.eth, EngineEvent.collectBlock Chain.lsk,
    EngineEvent.collectBlock Chain.neo, EngineEvent.collectBlock Chain.wav]).1
    (fun c => by cases c <;> decide)
  exact ⟨h1, (canMine_monotone_invariant [EngineEvent.collectBlock Chain.btc,
    EngineEvent.collectBlock Chain.eth, EngineEvent.collectBlock Chain.lsk,
    EngineEvent.collectBlock Chain.neo, EngineEvent.collectBlock Chain.wav]).2
    _ (EngineEvent.receiveSyncPeriod true) h1⟩

/-! ## Mining loop (`src/src/bc/miner.es6`, `mine`, lines 235-283)

The loop draws a random nonce each iteration and computes
`result = distance(work, blake2bl(miner + merkleRoot + nonceHash +
currentLoopTimestamp))`.  Blake2 is an opaque primitive per the
specification, so the trial value — a function of the drawn nonce and
the current loop timestamp only, for fixed `work`, `miner` and
`merkleRoot` — is supplied by the oracle `trialOf`.  Each iteration of
the real loop reads the clock (`ts.now()`, `ts.nowSeconds()`, and
`ts.now()` again for `timeDiff` on success) and draws one nonce; a
`MineStep` records one such iteration environment, and the loop is run
on a finite list of them (`none` covers both the 300-second timeout
break and running out of recorded iterations).  The acceptance
comparison `new BN(result, 16).gt(new BN(difficulty, 16))` is integer
comparison (bn.js ignores the base for number inputs). -/

structure MineStep where
  nowMs : Int
  nowS : Int
  nonce : String
  nowMs2 : Int
  deriving DecidableEq, Repr

structure MineSolution where
  distance : Int
  nonce : String
  timestamp : Int
  difficulty : Int
  iterations : Nat
  timeDiff : Int
  deriving DecidableEq, Repr

/-- `MAX_TIMEOUT_SECONDS = 300` (`src/src/bc/miner.es6` line 51). -/
def MAX_TIMEOUT_SECONDS : Int := 300

/-- The `while (true)` body of `mine`, carrying the mutable
`currentLoopTimestamp`, `difficulty` and `iterations` variables. -/
def mineLoop (trialOf : String → Int → Int) (dc : Option (Int → Int))
    (tsStart : Int) :
    List MineStep → Int → Int → Nat → Option MineSolution
  | [], _, _, _ => none
  | step :: rest, currentLoopTimestamp, difficulty, iterations =>
    let iterations := iterations + 1
    if tsStart + MAX_TIMEOUT_SECONDS * 1000 < step.nowMs then
      none
    else
      let td :=
        match dc with
        | some f =>
          if currentLoopTimestamp < step.nowS then (step.nowS, f step.nowS)
          else (currentLoopTimestamp, difficulty)
        | none => (currentLoopTimestamp, difficulty)
      let result := trialOf step.nonce td.1
      if td.2 < result then
        some { distance := result
               nonce := step.nonce
               timestamp := td.1
               difficulty := td.2
               iterations := iterations
               timeDiff := step.nowMs2 - tsStart }
      else
        mineLoop trialOf dc tsStart rest td.1 td.2 iterations

/-- `mine(currentTimestamp, work, miner, merkleRoot, threshold,
difficultyCalculator)`: initial loop state is the passed timestamp, the
passed threshold as difficulty, and zero iterations. -/
def mine (trialOf : String → Int → Int) (dc : Option (Int → Int))
    (tsStart currentTimestamp threshold : Int) (steps : List MineStep) :
    Option MineSolution :=
  mineLoop trialOf dc tsStart steps currentTimestamp threshold 0

theorem mineLoop_cons (trialOf : String → Int → Int) (dc : Option (Int → Int))
    (tsStart : Int) (step : MineStep) (rest : List MineStep)
    (clts diff : Int) (iter : Nat) :
    mineLoop trialOf dc tsStart (step :: rest) clts diff iter =
      if tsStart + MAX_TIMEOUT_SECONDS * 1000 < step.nowMs then none
      else
        let td :=
          match dc with
          | some f =>
            if clts < step.nowS then (step.nowS, f step.nowS)
            else (clts, diff)
          | none => (clts, diff)
        if td.2 < trialOf step.nonce td.1 then
          some { distance := trialOf step.nonce td.1
                 nonce := step.nonce
                 timestamp := td.1
                 difficulty := td.2
                 iterations := iter + 1
                 timeDiff := step.nowMs2 - tsStart }
        else
          mineLoop trialOf dc tsStart rest td.1 td.2 (iter + 1) := rfl

theorem mineLoop_solution_exceeds (trialOf : String → Int → Int)
    (dc : Option (Int → Int)) (tsStart : Int) :
    ∀ (steps : List MineStep) (clts diff : Int) (iter : Nat) (sol : MineSolution),
      mineLoop trialOf dc tsStart steps clts diff iter = some sol →
      sol.difficulty < sol.distance := by
  intro steps
  induction steps with
  | nil => intro clts diff iter sol h; exact absurd h (by simp [mineLoop])
  | cons step rest ih =>
    intro clts diff iter sol h
    rw [mineLoop_cons] at h
    by_cases ht : tsStart + MAX_TIMEOUT_SECONDS * 1000 < step.nowMs
    · rw [if_pos ht] at h
      exact absurd h (by simp)
    · rw [if_neg ht] at h
      dsimp only at h
      set td :=
        (match dc with
        | some f =>
          if clts < step.nowS then (step.nowS, f step.nowS)
          else (clts, diff)
        | none => (clts, diff)) with htd
      by_cases hacc : td.2 < trialOf step.nonce td.1
      · rw [if_pos hacc] at h
        obtain rfl : ({ distance := trialOf step.nonce td.1
                        nonce := step.nonce
                        timestamp := td.1
                        difficulty := td.2
                        iterations := iter + 1
                        timeDiff := step.nowMs2 - tsStart } : MineSolution) = sol :=
          Option.some.inj h
        exact hacc
      · rw [if_neg hacc] at h
        exact ih td.1 td.2 (iter + 1) sol h

/-- C5: whenever the mining loop returns a solution (rather than timing
out), the solution's distance strictly exceeds the difficulty in effect
at that iteration — the value recorded in the solution's `difficulty`
field — compared as unbounded integers. -/
theorem mine_solution_exceeds_difficulty (trialOf : String → Int → Int)
    (dc : Option (Int → Int)) (tsStart currentTimestamp threshold : Int)
    (steps : List MineStep) (sol : MineSolution)
    (h : mine trialOf dc tsStart currentTimestamp threshold steps = some sol) :
    sol.difficulty < sol.distance :=
  mineLoop_solution_exceeds trialOf dc tsStart steps currentTimestamp threshold 0 sol h

/-- C5 witness: a one-iteration run with trial value 0 against
threshold −1 returns a solution whose distance exceeds its recorded
difficulty. -/
theorem mine_solution_exceeds_difficulty_witness :
    ({ distance := 0, nonce := "n", timestamp := 5, difficulty := -1,
       iterations := 1, timeDiff := 7 } : MineSolution).difficulty <
      ({ distance := 0, nonce := "n", timestamp := 5, difficulty := -1,
         iterations := 1, timeDiff := 7 } : MineSolution).distance :=
  mine_solution_exceeds_difficulty (fun _ _ => 0) none 0 5 (-1)
    [{ nowMs := 0, nowS := 5, nonce := "n", nowMs2 := 7 }]
    { distance := 0, nonce := "n", timestamp := 5, difficulty := -1,
      iterations := 1, timeDiff := 7 }
    (by rfl)

/-! ## Distance (`src/src/bc/miner.es6`, `split`, `dist`, `distance`)

`split` maps a string to its character codes (`charCodeAt`); for
strings of Basic-Multilingual-Plane characters these coincide with the
code points used here.  `splitEvery32` is ramda's `splitEvery(32, ·)`.
`dist(x, y) = 1 - similarity(x, y)` where `similarity` is
`compute-cosine-similarity`: it throws when the two arrays have
different lengths, returns `null` on empty input (which the summing
`all + dist(b, a)` coerces to 0), and otherwise returns
`dot(x,y) / (sqrt(dot(x,x)) * sqrt(dot(y,y)))`.  JavaScript float
arithmetic is idealized as exact real arithmetic, and `Math.floor` as
the real floor function. -/

def split (t : String) : List Nat :=
  t.data.map Char.toNat

/-- ramda `splitEvery(32, ·)`: consecutive 32-element chunks, the last
possibly shorter.  The index loop is realized structurally, with the
list length as fuel; one unit of fuel is spent per chunk and the fuel
is always at least the chunk count, so the zero-fuel arm is
unreachable. -/
def splitEvery32 (l : List Nat) : List (List Nat) :=
  go l.length l
where
  go : Nat → List Nat → List (List Nat)
  | _, [] => []
  | 0, _ :: _ => []
  | fuel + 1, x :: xs => (x :: xs.take 31) :: go fuel (xs.drop 31)

inductive SimErr where
  | lengthMismatch
  deriving DecidableEq, Repr

/-- The dot product computed by `compute-cosine-similarity`'s loop. -/
def dotNat (x y : List Nat) : Nat :=
  ((x.zip y).map (fun p => p.1 * p.2)).sum

/-- `dist(x, y)` on one pair of chunks (`src/src/bc/miner.es6`
lines 188-196), with the length check of `compute-cosine-similarity`. -/
noncomputable def distChunk (x y : List Nat) : Except SimErr ℝ :=
  if x.length = y.length then
    if x.length = 0 then .ok 0
    else .ok (1 - (dotNat x y : ℝ) /
      (Real.sqrt (dotNat x x) * Real.sqrt (dotNat y y)))
  else .error .lengthMismatch

/-- `distance(a, b)` (`src/src/bc/miner.es6` lines 205-221): zip the
reversed chunking of `a` against the forward chunking of `b`, sum
`dist(bChunk, aChunk)`, and floor the sum times 10^15.  A throw inside
the reduce propagates out as the error. -/
noncomputable def distance (a b : String) : Except SimErr Int :=
  let aChunks := (splitEvery32 (split a)).reverse
  let bChunks := splitEvery32 (split b)
  let chunks := aChunks.zip bChunks
  (chunks.foldlM (fun acc p => (distChunk p.2 p.1).map (fun d => acc + d)) (0 : ℝ)).map
    (fun value => ⌊value * 1000000000000000⌋)

/-- C3: `distance(s, s)` does not return 0 for every `s`: for the
33-character string below, the chunking yields a 32-code chunk and a
1-code chunk; the reversal pairs them crosswise, so cosine-similarity
is called on arrays of lengths 32 and 1 and throws instead of
returning. -/
theorem distance_self_counterexample :
    distance "aaaaaaaaaaaaaaaaaaaaaaaaaaaaaaaaa" "aaaaaaaaaaaaaaaaaaaaaaaaaaaaaaaaa" =
      .error .lengthMismatch := by
  rfl

theorem splitEvery32_of_short (l : List Nat) (h0 : l ≠ []) (h : l.length ≤ 32) :
    splitEvery32 l = [l] := by
  match l with
  | [] => exact absurd rfl h0
  | x :: xs =>
    have hxs : xs.length ≤ 31 := by
      simp at h
      omega
    show splitEvery32.go (xs.length + 1) (x :: xs) = [x :: xs]
    rw [splitEvery32.go, List.take_of_length_le hxs,
      List.drop_eq_nil_of_le (by omega), splitEvery32.go]

theorem distChunk_self (c : List Nat) (hc : c ≠ []) (hnz : dotNat c c ≠ 0) :
    distChunk c c = .ok 0 := by
  have hlen : c.length ≠ 0 := fun h => hc (List.length_eq_zero.mp h)
  unfold distChunk
  rw [if_pos rfl, if_neg hlen]
  have hdnn : (0 : ℝ) ≤ (dotNat c c : ℝ) := Nat.cast_nonneg _
  rw [Real.mul_self_sqrt hdnn,
    div_self (by exact_mod_cast hnz), sub_self]

/-- C3 (amended): `distance(s, s)` returns 0 for every `s` of at most
32 characters whose codes are not all zero (in exact real arithmetic);
for longer strings whose trailing chunk is shorter — any length in
33…63, for instance — the reversed pairing feeds two chunks of
different lengths to cosine-similarity, which throws. -/
theorem distance_self_single_chunk (s : String) (hlen : s.length ≤ 32)
    (hnz : dotNat (split s) (split s) ≠ 0) :
    distance s s = .ok 0 := by
  have hsplitlen : (split s).length = s.length := by
    rw [split, List.length_map]
    rfl
  have hne : split s ≠ [] := by
    intro h
    exact hnz (by rw [h]; rfl)
  have hchunks : splitEvery32 (split s) = [split s] :=
    splitEvery32_of_short _ hne (by omega)
  have hdc : distChunk (split s) (split s) = .ok 0 := distChunk_self _ hne hnz
  unfold distance
  rw [hchunks]
  simp only [List.reverse_singleton, List.zip_cons_cons, List.zip_nil_right,
    List.foldlM_cons, List.foldlM_nil, hdc]
  simp only [Except.map, zero_add, Except.instMonad, Except.bind, Except.pure,
    bind, pure]
  norm_num

/-- C3 witness: `distance("a", "a") = 0`. -/
theorem distance_self_single_chunk_witness : distance "a" "a" = .ok 0 :=
  distance_self_single_chunk "a" (by decide) (by decide)

end Spec2Proof
